import Mathlib

/-!
Shallow embedding of the Otanet incremental manga-synchronization engine
(`src/Otanet`), covering the parts of the code that the verified properties
talk about:

* `libs/sqlite_helper.py` — the State Store: per-manga page-URL tables
  (`create_page_urls_table`, `store_page_url`, `get_existing_chapter_pages`,
  `get_manga_latest_chapter`) and the `manga_metadata` table
  (`insert_manga_metadata`).
* `libs/manga_factory.py` — `MangaFactory.set_chapters` /
  `MangaFactory.set_latest_chapter`.
* `libs/mangadex_helper.py` — `MangaDexHelper.set_latest_chapters` and the
  per-chapter missing-page / thread fan-out logic of
  `store_page_url_to_database`.
* `libs/natomanga_helper.py` — the missing-page fan-out of
  `_store_chapter_pages`.
* `src/main.py` — the per-item worker body (dedup guard acquire / release
  around sync and download) and the S3 upload debounce loop
  (`s3_upload_thread`).
* `libs/dashboard.py` — the operator request-queue worker.

Python floats are modelled as `ℚ`; chapter numbers and page numbers travel
as strings exactly as they do through the SQLite layer.  Fallible Python
code is modelled with `Except PyError`.
-/

/-- Exceptions that the modelled Python code can raise. -/
inductive PyError
  | typeError
  | valueError
  | operationalError
deriving DecidableEq, Repr

/-! ### Python numeric-string parsing (`float(...)` and `Utils.is_float`) -/

/-- Numeric value of one decimal digit character. -/
def digitVal (c : Char) : ℕ := c.toNat - '0'.toNat

/-- Value of a plain decimal digit run. -/
def digitsVal (cs : List Char) : ℕ := cs.foldl (fun n c => 10 * n + digitVal c) 0

/-- Checks a Python digit group: nonempty, made of digits, where a single
underscore may appear only between two digits (PEP 515, the grammar
`float()` accepts for each digit part). -/
def validUAux : List Char → Bool
  | [] => false
  | [c] => c.isDigit
  | c :: c2 :: rest =>
      c.isDigit && (if c2 = '_' then validUAux rest else validUAux (c2 :: rest))

/-- Drops the underscore digit separators from a digit group. -/
def stripU (cs : List Char) : List Char := cs.filter (fun c => c != '_')

/-- Splits a character list at the first dot, if any. -/
def splitDot : List Char → List Char × Option (List Char)
  | [] => ([], none)
  | c :: rest =>
      if c = '.' then ([], some rest)
      else
        let p := splitDot rest
        (c :: p.1, p.2)

/-- Value of the fractional digit group of a decimal string. -/
def fracVal (frac : List Char) : ℚ :=
  (digitsVal (stripU frac) : ℚ) / ((10 : ℚ) ^ (stripU frac).length)

/-- Python `float()` on the decimal strings this program feeds it: optional
sign, then an integer digit group, a fractional digit group, or both around
one dot, each group allowing single underscores between digits (PEP 515).
Notations that never occur as chapter labels in this program (exponents,
`inf`, `nan`, surrounding whitespace) are left out and map to `none`. -/
def pyFloat? (s : String) : Option ℚ :=
  let signed : Bool × List Char :=
    match s.data with
    | '-' :: rest => (true, rest)
    | '+' :: rest => (false, rest)
    | _ => (false, s.data)
  let p := splitDot signed.2
  let mag : Option ℚ :=
    match p.2 with
    | none =>
        if validUAux p.1 then some (digitsVal (stripU p.1) : ℚ) else none
    | some frac =>
        if p.1 = [] then
          if validUAux frac then some (fracVal frac) else none
        else if frac = [] then
          if validUAux p.1 then some (digitsVal (stripU p.1) : ℚ) else none
        else if validUAux p.1 && validUAux frac then
          some ((digitsVal (stripU p.1) : ℚ) + fracVal frac)
        else none
  if signed.1 then mag.map (fun q => -q) else mag

/-- `Utils.is_float` (`libs/utils.py`): does `float(input)` succeed. -/
def is_float (s : String) : Bool := (pyFloat? s).isSome

/-- `Utils.get_first_number` (`libs/utils.py`): value of the first maximal
digit run in the string, `0` when the string has no digit. -/
def get_first_number : List Char → ℕ
  | [] => 0
  | c :: rest =>
      if c.isDigit then digitsVal ((c :: rest).takeWhile Char.isDigit)
      else get_first_number rest

/-- Identifier sanitization applied by the SQLite layer before it uses a
manga id as a table name: every hyphen becomes an underscore
(`manga_id.replace("-", "_")` in `libs/sqlite_helper.py`; with a
one-character pattern, `str.replace` is a character-wise substitution). -/
def sanitizeId (s : String) : String :=
  ⟨s.data.map (fun c => if c = '-' then '_' else c)⟩

/-! ### State Store: per-manga page-URL tables -/

/-- One row of a per-manga page-URLs table
(`create_page_urls_table` in `libs/sqlite_helper.py`; the AUTOINCREMENT id
and timestamp columns are not consulted by any code modelled here). -/
structure PageRow where
  manga_name : String
  chapter_num : String
  page_number : String
  page_url : String
deriving DecidableEq, Repr

/-- The page-URL side of the SQLite database: one named table per sanitized
manga id. -/
abbrev PageDB := List (String × List PageRow)

/-- Looks up a table by name. -/
def lookupTable : PageDB → String → Option (List PageRow)
  | [], _ => none
  | (t, rows) :: rest, name => if t = name then some rows else lookupTable rest name

/-- Replaces the contents of every table with the given name. -/
def setTable : PageDB → String → List PageRow → PageDB
  | [], _, _ => []
  | (t, rows) :: rest, name, newRows =>
      if t = name then (t, newRows) :: setTable rest name newRows
      else (t, rows) :: setTable rest name newRows

/-- Does the table already hold a row with this `(chapter_num, page_number)`
key — the scope of the SQL `UNIQUE(chapter_num, page_number)` constraint. -/
def hasPageKey : List PageRow → String → String → Bool
  | [], _, _ => false
  | r :: rest, ch, pg =>
      (decide (r.chapter_num = ch) && decide (r.page_number = pg)) || hasPageKey rest ch pg

/-- `SQLiteHelper.create_page_urls_table`: `CREATE TABLE IF NOT EXISTS` on
the sanitized manga id. -/
def create_page_urls_table (db : PageDB) (mangaId : String) : PageDB :=
  let t := sanitizeId mangaId
  match lookupTable db t with
  | some _ => db
  | none => db ++ [(t, [])]

/-- `SQLiteHelper.store_page_url`: `INSERT OR IGNORE` into the sanitized
manga id table under the `UNIQUE(chapter_num, page_number)` constraint.
Inserting into a table that does not exist raises
`sqlite3.OperationalError`, which the function re-raises (it only retries
on a locked database). -/
def store_page_url (db : PageDB) (mangaId manga_name ch pg url : String) :
    Except PyError PageDB :=
  let t := sanitizeId mangaId
  match lookupTable db t with
  | none => .error .operationalError
  | some rows =>
      if hasPageKey rows ch pg then .ok db
      else .ok (setTable db t (rows ++ [⟨manga_name, ch, pg, url⟩]))

/-- `SQLiteHelper.get_existing_chapter_pages`: the page numbers already
stored for one chapter of the (sanitized-id) manga table, the empty set
when the table does not exist. -/
def get_existing_chapter_pages (db : PageDB) (mangaId ch : String) : List String :=
  match lookupTable db (sanitizeId mangaId) with
  | none => []
  | some rows =>
      (rows.filter (fun r => decide (r.chapter_num = ch))).map (fun r => r.page_number)

/-- SQL `MAX` over a TEXT column: the lexicographically greatest string. -/
def sqlTextMax (l : List String) : Option String :=
  l.foldl (fun acc s =>
    match acc with
    | none => some s
    | some a => some (if a ≤ s then s else a)) none

/-- `SQLiteHelper.get_manga_latest_chapter`: runs
`SELECT MAX(DISTINCT chapter_num)` on the named table and converts the
result with `float(...)`.  A missing table raises
`sqlite3.OperationalError`, which the function catches and turns into
`None`; an empty table yields SQL `NULL` and an empty string is falsy, both
of which the source maps to `None`; a maximal string that `float()` cannot
parse raises `ValueError`, which the source does not catch. -/
def get_manga_latest_chapter (db : PageDB) (tableName : String) :
    Except PyError (Option ℚ) :=
  match lookupTable db tableName with
  | none => .ok none
  | some rows =>
      match sqlTextMax (rows.map (fun r => r.chapter_num)) with
      | none => .ok none
      | some s =>
          if s = "" then .ok none
          else
            match pyFloat? s with
            | some q => .ok (some q)
            | none => .error .valueError

/-! ### MangaFactory (`libs/manga_factory.py`) -/

/-- One element of a chapter feed: the chapter locator and its
`attributes.chapter` label. -/
structure Chapter where
  cid : String
  chapter : String
deriving DecidableEq, Repr

/-- A `MangaFactory` object: metadata plus the mutable `latest_chapter`
(initialized to `0`) and `chapters` fields. -/
structure Manga where
  id : String
  title : String
  description : String
  cover_img : String
  tags : List String
  latest_chapter : ℚ := 0
  chapters : List Chapter := []
deriving DecidableEq, Repr

/-- Numeric sort key of a feed chapter (`float(chapter_num)`; total on the
chapters `set_chapters` keeps, which all parse). -/
def chapVal (c : Chapter) : ℚ := (pyFloat? c.chapter).getD 0

/-- Stable insertion into an ascending chapter list. -/
def insertChapter (c : Chapter) : List Chapter → List Chapter
  | [] => [c]
  | d :: rest => if chapVal c < chapVal d then c :: d :: rest else d :: insertChapter c rest

/-- Stable ascending sort by numeric chapter label, as Python
`sorted(..., key=float(...))` produces. -/
def sortChapters (l : List Chapter) : List Chapter := l.foldr insertChapter []

/-- `MangaFactory.set_chapters`: keep the feed entries whose chapter label
parses as a float and sort them ascending by that value. -/
def MangaFactory.set_chapters (m : Manga) (feed : List Chapter) : Manga :=
  { m with chapters := sortChapters (feed.filter (fun c => is_float c.chapter)) }

/-- `MangaFactory.set_latest_chapter`, exactly as `libs/manga_factory.py`
defines it: it requires a `chapters` argument, sets `latest_chapter` to the
float value of the last entry, swallows any error, and returns no value.
Note that both `MangaDexHelper.set_latest_chapters` and
`NatoMangaHelper.set_latest_chapters` invoke this method with *no*
argument, which raises `TypeError` before this body ever runs. -/
def MangaFactory.set_latest_chapter (m : Manga) (chapters : List Chapter) : Manga :=
  match chapters.getLast? with
  | none => m
  | some c =>
      match pyFloat? c.chapter with
      | none => m
      | some q => { m with latest_chapter := q }

/-! ### MangaDexHelper.set_latest_chapters (`libs/mangadex_helper.py`) -/

/-- `MangaDexHelper.set_latest_chapters`.  The source (lines 59-113):
reads the stored latest chapter from the manga's own page table
(`get_manga_latest_chapter(manga_id.replace('-','_'), ...)`), fetches the
full chapter feed (modelled as the `feed` argument), returns `False` when
the feed is empty, calls `manga.set_chapters(...)`, and then executes
`should_download = manga.set_latest_chapter()` — a call with no argument to
a method whose signature is `set_latest_chapter(self, chapters)`, so Python
raises `TypeError` at that line.  The incremental-cutoff comparison on
lines 105-113 is therefore unreachable. -/
def MangaDexHelper.set_latest_chapters (db : PageDB) (m : Manga) (feed : List Chapter) :
    Except PyError (Bool × Manga) :=
  match get_manga_latest_chapter db (sanitizeId m.id) with
  | .error e => .error e
  | .ok _existing =>
      if feed.isEmpty then .ok (false, m)
      else
        let _sorted := MangaFactory.set_chapters m feed
        .error PyError.typeError

/-- The maximum numeric chapter index of a fetched chapter manifest. -/
def maxChapterVal (feed : List Chapter) : ℚ :=
  (feed.filterMap (fun c => pyFloat? c.chapter)).foldl max 0

/-! ### State Store: the `manga_metadata` table (`insert_manga_metadata`) -/

/-- One row of the `manga_metadata` table (`create_metadata_table`); the
AUTOINCREMENT id and timestamp columns are not consulted by the modelled
code. -/
structure MetaRow where
  title : String
  description : String
  tags : String
  hash : String
  latest_chapter : ℚ
  cover_img : String
deriving DecidableEq, Repr

/-- First row with the given hash (`SELECT ... WHERE hash = ?` /
`fetchone`). -/
def findHash : List MetaRow → String → Option MetaRow
  | [], _ => none
  | r :: rest, hsh => if r.hash = hsh then some r else findHash rest hsh

/-- `UPDATE manga_metadata SET latest_chapter = ?, cover_img = ?, time = ?
WHERE hash = ?`. -/
def updateHash (tbl : List MetaRow) (hsh : String) (latest : ℚ) (cover : String) :
    List MetaRow :=
  match tbl with
  | [] => []
  | r :: rest =>
      if r.hash = hsh then
        { r with latest_chapter := latest, cover_img := cover } :: updateHash rest hsh latest cover
      else r :: updateHash rest hsh latest cover

/-- Python `str()` of the tag list as stored in the `tags` column; no
modelled code reads this value back. -/
def pyStrTags (tags : List String) : String := String.intercalate ", " tags

/-- `SQLiteHelper.insert_manga_metadata` (lines 213-278): when no row with
the manga's hash exists, insert one — unless `latest_chapter` is `0`, in
which case return without writing; when a row exists, update
`latest_chapter` (and `cover_img`) only if the stored value is strictly
smaller than the new one. -/
def insert_manga_metadata (tbl : List MetaRow) (m : Manga) : List MetaRow :=
  match findHash tbl m.id with
  | some row =>
      if row.latest_chapter < m.latest_chapter then
        updateHash tbl m.id m.latest_chapter m.cover_img
      else tbl
  | none =>
      if m.latest_chapter = 0 then tbl
      else
        tbl ++ [{ title := m.title, description := m.description,
                  tags := pyStrTags m.tags, hash := m.id,
                  latest_chapter := m.latest_chapter, cover_img := m.cover_img }]

/-- The `latest_chapter` value currently stored for a hash. -/
def storedLatest (tbl : List MetaRow) (hsh : String) : Option ℚ :=
  (findHash tbl hsh).map (fun r => r.latest_chapter)

/-- Ordering on an optional stored value: an absent value may become
anything, a present value may only stay or grow. -/
def latestLe : Option ℚ → Option ℚ → Prop
  | none, _ => True
  | some _, none => False
  | some a, some b => a ≤ b

/-- One sync attempt as the metadata table sees it: either the attempt
reaches the `insert_manga_metadata` call, or it fails earlier (worker
exception, guard skip, no new chapters) and the table is untouched. -/
def metadataAttempt (tbl : List MetaRow) (a : Manga × Bool) : List MetaRow :=
  if a.2 then insert_manga_metadata tbl a.1 else tbl

/-! ### Per-item worker body (`mangadex_worker`, `src/main.py` 123-156) -/

/-- Observable events of one worker's handling of one discovered item. -/
inductive Ev
  | acquire (id : String)
  | syncCall (id : String)
  | metaWrite (id : String)
  | chapterProcessed (id : String) (ch : String)
  | s3Signal
  | release (id : String)
deriving DecidableEq, Repr

/-- Event trace of `mangadex_worker`'s per-item body (`src/main.py`
123-156): test-and-set on `processing_manga` (a hit means `continue` with
no further action), then `set_latest_chapters` (whose outcome — exception,
`False`, or `True` — is the `sync` argument); on `True` the worker first
calls `insert_manga_metadata`, then `download_chapters` (one event per
chapter of the manga, in list order), then signals the S3 queue; the
`finally` block releases the guard on every path. -/
def mangadexWorkerItem (held : List String) (id : String)
    (sync : Except PyError Bool) (chapters : List String) : List Ev :=
  if id ∈ held then []
  else
    Ev.acquire id ::
      ((match sync with
        | .error _ => [Ev.syncCall id]
        | .ok false => [Ev.syncCall id]
        | .ok true =>
            Ev.syncCall id :: Ev.metaWrite id ::
              (chapters.map (fun ch => Ev.chapterProcessed id ch) ++ [Ev.s3Signal]))
        ++ [Ev.release id])

/-- Boolean form of the property "every metadata write for an item comes
after every one of that item's chapter-processed events" in a trace. -/
def metaWriteOnlyAfterChapters (tr : List Ev) : Bool :=
  (List.range tr.length).all fun i =>
    (List.range tr.length).all fun j =>
      match tr.get? i, tr.get? j with
      | some (Ev.metaWrite a), some (Ev.chapterProcessed b _) =>
          if a = b then decide (j < i) else true
      | _, _ => true

/-- Every metadata write in the trace comes strictly before every
chapter-processed event. -/
def metaWriteBeforeChaptersP (tr : List Ev) : Prop :=
  ∀ i j a b ch, tr.get? i = some (Ev.metaWrite a) →
    tr.get? j = some (Ev.chapterProcessed b ch) → i < j

/-! ### Dedup guard and worker pool (`src/main.py` 88-89, 123-156;
`libs/dashboard.py` 53-82) -/

/-- What one thread is doing with respect to item processing. -/
inductive WPhase
  | idle
  | working (id : String)
deriving DecidableEq, Repr

/-- Shared state of the process: the `processing_manga` set (every access
to it happens under `processing_lock`, so each action below is atomic), the
discovery worker threads, and the dashboard request-queue worker. -/
structure GuardSys where
  pset : List String
  workers : List WPhase
  opPhase : WPhase
deriving DecidableEq, Repr

/-- Python `set.add`. -/
def setAdd (s : List String) (id : String) : List String :=
  if id ∈ s then s else id :: s

/-- Python `set.discard`. -/
def setDiscard (s : List String) (id : String) : List String :=
  s.filter (fun x => x != id)

/-- Worker-phase lookup in the thread pool. -/
def wget : List WPhase → ℕ → Option WPhase
  | [], _ => none
  | p :: _, 0 => some p
  | _ :: rest, n + 1 => wget rest n

/-- Worker-phase update in the thread pool. -/
def wset : List WPhase → ℕ → WPhase → List WPhase
  | [], _, _ => []
  | _ :: rest, 0, q => q :: rest
  | p :: rest, n + 1, q => p :: wset rest n q

/-- Atomic actions on the shared state.  `tryAcquire` is the
lock-protected test-and-set of `mangadex_worker` / `natomanga_worker`
(`with processing_lock: if manga_id in processing_manga: continue;
processing_manga.add(manga_id)`); `finishItem` is the end of the item body
— whether the sync raised or not — whose `finally` block discards the id;
`opStart` / `opFinish` bracket the dashboard `request_queue_worker`'s
handling of an operator-requested id, which never touches
`processing_manga` or `processing_lock`. -/
inductive GuardAct
  | tryAcquire (w : ℕ) (id : String)
  | finishItem (w : ℕ) (failed : Bool)
  | opStart (id : String)
  | opFinish (failed : Bool)
deriving DecidableEq, Repr

/-- Interleaving semantics: one atomic action against the shared state. -/
def guardStep (st : GuardSys) : GuardAct → GuardSys
  | .tryAcquire w id =>
      match wget st.workers w with
      | some .idle =>
          if id ∈ st.pset then st
          else { st with pset := setAdd st.pset id, workers := wset st.workers w (.working id) }
      | _ => st
  | .finishItem w _failed =>
      match wget st.workers w with
      | some (.working id) =>
          { st with pset := setDiscard st.pset id, workers := wset st.workers w .idle }
      | _ => st
  | .opStart id => { st with opPhase := .working id }
  | .opFinish _failed => { st with opPhase := .idle }

/-- Initial state: empty `processing_manga` set, `n` idle workers, idle
request-queue worker. -/
def guardStart (n : ℕ) : GuardSys :=
  { pset := [], workers := List.replicate n .idle, opPhase := .idle }

/-- State after a sequence of atomic actions from the initial state. -/
def runGuard (n : ℕ) (acts : List GuardAct) : GuardSys :=
  acts.foldl guardStep (guardStart n)

/-- Worker `w` currently owns processing rights for `id`. -/
def workerHolds (st : GuardSys) (w : ℕ) (id : String) : Prop :=
  wget st.workers w = some (.working id)

/-- The dedup-guard invariant: every held id is in `processing_manga`, and
no two workers hold the same id. -/
def GuardInv (st : GuardSys) : Prop :=
  (∀ w id, workerHolds st w id → id ∈ st.pset) ∧
  (∀ w v id, workerHolds st w id → workerHolds st v id → w = v)

/-! ### Replication debounce loop (`s3_upload_thread`, `src/main.py`
263-294) -/

/-- The loop-carried state of `s3_upload_thread`: the accumulated signal
count and the time of the last successful upload. -/
structure S3State where
  upload_count : ℕ
  last_upload_time : ℚ
deriving DecidableEq, Repr

/-- One iteration's environment: whether the 60-second `queue.get` yielded
a signal, the wall-clock time read right after it, and whether the S3
upload inside `data_to_s3` actually goes through when attempted. -/
structure S3Iter where
  gotSignal : Bool
  now : ℚ
  flushOk : Bool
deriving DecidableEq, Repr

/-- Result of one iteration of the upload loop.  `flushSucceeded` records
whether the S3 upload itself went through — an outcome the loop body in
`main.py` cannot observe, because `data_to_s3` swallows the failure. -/
structure S3Out where
  state : S3State
  flushAttempted : Bool
  flushSucceeded : Bool
deriving DecidableEq, Repr

/-- `SQLiteHelper.data_to_s3` (`libs/sqlite_helper.py` 280-286): runs the
S3 upload inside `try: ... except Exception: print(...)` — every failure
is caught and logged inside the method itself, so the call returns
normally whether or not the upload succeeded and never raises to its
caller. -/
def data_to_s3 (_uploadOk : Bool) : Except PyError Unit :=
  .ok ()

/-- One iteration of `s3_upload_thread` (`src/main.py` 269-291): count the
signal if one arrived; when the count reaches 10 or 300 seconds have
elapsed since the last flush, call `data_to_s3`.  The `except` branch at
`main.py` 288-290 would skip the resets, but it is unreachable for upload
failures because `data_to_s3` returns normally even when the upload
failed — so `upload_count` and `last_upload_time` are reset after every
attempted flush, successful or not. -/
def s3UploadStep (st : S3State) (i : S3Iter) : S3Out :=
  let cnt := st.upload_count + (if i.gotSignal then 1 else 0)
  if 10 ≤ cnt ∨ 300 ≤ i.now - st.last_upload_time then
    match data_to_s3 i.flushOk with
    | .ok _ =>
        { state := { upload_count := 0, last_upload_time := i.now },
          flushAttempted := true, flushSucceeded := i.flushOk }
    | .error _ =>
        { state := { upload_count := cnt, last_upload_time := st.last_upload_time },
          flushAttempted := true, flushSucceeded := false }
  else
    { state := { upload_count := cnt, last_upload_time := st.last_upload_time },
      flushAttempted := false, flushSucceeded := false }

/-! ### Per-chapter page fan-out (`store_page_url_to_database`,
`libs/mangadex_helper.py` 280-319; `_store_chapter_pages`,
`libs/natomanga_helper.py` 389-411) -/

/-- The missing pages of a MangaDex chapter: the page-manifest entries
whose first number (the page number) is not among the pages already
stored. -/
def mdMissingPages (data existing : List String) : List String :=
  data.filter (fun page => !(existing.contains (toString (get_first_number page.data))))

/-- The missing pages of a NatoManga chapter: the 1-based positions of the
page URLs not already stored. -/
def natoMissingPages (urls existing : List String) : List (ℕ × String) :=
  (((List.range urls.length).map (fun i => i + 1)).zip urls).filter
    (fun p => !(existing.contains (toString p.1)))

/-- Thread lifecycle events of the per-chapter fan-out. -/
inductive ThreadEv
  | start (i : ℕ)
  | join (i : ℕ)
deriving DecidableEq, Repr

/-- The schedule both helpers produce for `n` missing pages: one loop that
starts one thread per missing page, then a second loop that joins them —
every thread is started before any is joined. -/
def pageThreadSchedule (n : ℕ) : List ThreadEv :=
  ((List.range n).map ThreadEv.start) ++ ((List.range n).map ThreadEv.join)

/-- Is a thread event a start. -/
def isStart : ThreadEv → Bool
  | .start _ => true
  | .join _ => false

/-- Number of threads alive (started and not yet joined) after a prefix of
the schedule. -/
def runningAt (evs : List ThreadEv) : ℕ :=
  (evs.countP isStart) - (evs.countP (fun e => !isStart e))

/-- The peak number of simultaneously alive page threads that a schedule
admits. -/
def peakConcurrency (evs : List ThreadEv) : ℕ :=
  ((List.range (evs.length + 1)).map (fun k => runningAt (evs.take k))).foldl max 0

/-- A chapter manifest with `n` pages named by their page numbers. -/
def mkPages (n : ℕ) : List String := (List.range n).map (fun i => toString (i + 1))

/-! ### Operations used to generate reachable State Store states -/

/-- The State Store operations on page tables that the engine performs. -/
inductive PageOp
  | create (mangaId : String)
  | store (mangaId manga_name ch pg url : String)
deriving DecidableEq, Repr

/-- Applies one operation; a raising `store_page_url` leaves the database
unchanged. -/
def applyPageOp (db : PageDB) : PageOp → PageDB
  | .create mangaId => create_page_urls_table db mangaId
  | .store a b c d e =>
      match store_page_url db a b c d e with
      | .ok db2 => db2
      | .error _ => db

/-- The database after a sequence of operations, starting empty. -/
def runPageOps (ops : List PageOp) : PageDB := ops.foldl applyPageOp []

/-- Key-uniqueness of one page table: no two rows share a
`(chapter_num, page_number)` pair. -/
def tableKeyUnique (rows : List PageRow) : Prop :=
  (rows.map (fun r => (r.chapter_num, r.page_number))).Nodup

/-- Key-uniqueness of every table in the database. -/
def pageDBInv (db : PageDB) : Prop := ∀ p ∈ db, tableKeyUnique p.2

/-! ### Concrete instances used to witness the theorems -/

/-- A discovered manga with two upstream chapters. -/
def mangaX : Manga :=
  { id := "manga-x", title := "T", description := "", cover_img := "", tags := [] }

/-- A two-chapter feed for `mangaX`. -/
def feedX : List Chapter := [⟨"cid1", "1"⟩, ⟨"cid2", "2"⟩]

/-- A one-chapter feed whose only chapter is `3`. -/
def feedC3 : List Chapter := [⟨"cid3", "3"⟩]

/-- A database in which `mangaX`'s page table already stores a page of
chapter `5`. -/
def dbX : PageDB := [("manga_x", [⟨"T", "5", "1", "u"⟩])]

/-- Operations that create `mangaX`'s table and store one page. -/
def opsX : List PageOp := [.create "manga-x", .store "manga-x" "T" "1" "1" "u"]

/-- Guard actions: worker 0 acquires `manga-x`, then the dashboard
request-queue worker starts processing the same id. -/
def actsX : List GuardAct := [.tryAcquire 0 "manga-x", .opStart "manga-x"]

/-- A page table holding one page of `a_b`, reachable by creating the
table for id `a_b` and storing one page under the distinct id `a-b`. -/
def dbCollide : PageDB := [("a_b", [])]

/-- `dbCollide` after one page of chapter `1` is stored under id `a-b`. -/
def dbCollideAfter : PageDB := [("a_b", [⟨"T", "1", "1", "u"⟩])]

/-! ## Theorems -/

/-- Claim C1 (the code contradicts it).  A per-item MangaDex sync with a
nonempty chapter feed always raises — `mangadex_helper.py:103` calls
`MangaFactory.set_latest_chapter` with no argument although the method
requires a `chapters` parameter, so Python raises `TypeError` there — and
consequently `set_latest_chapters` can never return `True`, so
`download_chapters` is never invoked: no run of the sync, first or second,
ever completes the download path that the idempotence claim is about. -/
theorem mangadex_sync_never_completes (db : PageDB) (m : Manga) (feed : List Chapter) :
    (feed ≠ [] → ∃ e, MangaDexHelper.set_latest_chapters db m feed = Except.error e) ∧
    ∀ m2 : Manga, MangaDexHelper.set_latest_chapters db m feed ≠ Except.ok (true, m2) := by
  cases hg : get_manga_latest_chapter db (sanitizeId m.id) with
  | error e =>
      refine ⟨fun _ => ⟨e, ?_⟩, fun m2 => ?_⟩ <;>
        simp [MangaDexHelper.set_latest_chapters, hg]
  | ok ex =>
      cases feed with
      | nil =>
          refine ⟨fun hne => absurd rfl hne, fun m2 => ?_⟩
          simp [MangaDexHelper.set_latest_chapters, hg]
      | cons c rest =>
          refine ⟨fun _ => ⟨PyError.typeError, ?_⟩, fun m2 => ?_⟩ <;>
            simp [MangaDexHelper.set_latest_chapters, hg]

/-- Witness for C1: the sync of `mangaX` against its two-chapter feed
raises on an empty database. -/
theorem mangadex_sync_never_completes_witness :
    ∃ e, MangaDexHelper.set_latest_chapters [] mangaX feedX = Except.error e :=
  (mangadex_sync_never_completes [] mangaX feedX).1 (by decide)

/-- Claim C2 (the code contradicts it).  Even when the stored latest
chapter is present and at least the maximum numeric chapter index of the
fresh manifest — exactly the situation in which the incremental cutoff at
`mangadex_helper.py:105-113` would return `False` — the sync never reaches
that cutoff: it raises `TypeError` at line 103 first.  No page fetch is
attempted, but the sync terminates abnormally instead of returning a
`downloaded=0` result. -/
theorem mangadex_cutoff_unreachable (db : PageDB) (m : Manga) (feed : List Chapter)
    (stored : ℚ)
    (hstored : get_manga_latest_chapter db (sanitizeId m.id) = Except.ok (some stored))
    (hmax : maxChapterVal feed ≤ stored) (hne : feed ≠ []) :
    MangaDexHelper.set_latest_chapters db m feed = Except.error PyError.typeError := by
  cases feed with
  | nil => exact absurd rfl hne
  | cons c rest => simp [MangaDexHelper.set_latest_chapters, hstored]

/-- Witness for C2: `dbX` stores chapter `5` for `mangaX`, the fresh
manifest's maximum chapter is `3`, and the sync still raises. -/
theorem mangadex_cutoff_unreachable_witness :
    MangaDexHelper.set_latest_chapters dbX mangaX feedC3 = Except.error PyError.typeError :=
  mangadex_cutoff_unreachable dbX mangaX feedC3 5 rfl (by decide) (by decide)

/-- Claim C3 is false of the worker: in the per-item body of
`mangadex_worker` the metadata write (`insert_manga_metadata`,
`src/main.py:148`) happens *before* the chapters are processed
(`download_chapters`, `src/main.py:149`), so on a concrete item with two
chapters the trace violates "the State Store write is performed only after
all of the item's chapters have been processed". -/
theorem metadata_write_after_chapters_counterexample :
    metaWriteOnlyAfterChapters
      (mangadexWorkerItem [] "manga-x" (.ok true) ["1", "2"]) = false := by
  decide

/-- Claim C3, amended: when the sync decides that new content exists, the
worker performs exactly one metadata write for the item, and that write
comes strictly *before* every chapter-processed event, not after. -/
theorem metadata_write_precedes_chapters (held : List String) (id : String)
    (chs : List String) (h : id ∉ held) :
    (mangadexWorkerItem held id (.ok true) chs).count (Ev.metaWrite id) = 1 ∧
    metaWriteBeforeChaptersP (mangadexWorkerItem held id (.ok true) chs) := by
  have htr : mangadexWorkerItem held id (.ok true) chs =
      Ev.acquire id :: Ev.syncCall id :: Ev.metaWrite id ::
        (chs.map (fun ch => Ev.chapterProcessed id ch) ++ [Ev.s3Signal, Ev.release id]) := by
    simp [mangadexWorkerItem, h]
  rw [htr]
  constructor
  · have hmap : (chs.map (fun ch => Ev.chapterProcessed id ch)).count (Ev.metaWrite id) = 0 := by
      rw [List.count_eq_zero]
      intro hmem
      rcases List.mem_map.mp hmem with ⟨ch, _, hch⟩
      exact Ev.noConfusion hch
    simp [List.count_cons, List.count_append, hmap]
  · intro i j a b ch hi hj
    have hji : 3 ≤ j := by
      rcases j with _ | _ | _ | n
      · simp at hj
      · simp at hj
      · simp at hj
      · omega
    have hij : i = 2 := by
      rcases i with _ | _ | _ | n
      · simp at hi
      · simp at hi
      · rfl
      · exfalso
        have hmem : Ev.metaWrite a ∈
            chs.map (fun ch => Ev.chapterProcessed id ch) ++ [Ev.s3Signal, Ev.release id] := by
          have : (chs.map (fun ch => Ev.chapterProcessed id ch) ++
              [Ev.s3Signal, Ev.release id]).get? n = some (Ev.metaWrite a) := hi
          exact List.get?_mem this
        simp [List.mem_append, List.mem_map] at hmem
    omega

/-- Witness for the amended C3 at a one-chapter item. -/
theorem metadata_write_precedes_chapters_witness :
    (mangadexWorkerItem [] "manga-x" (.ok true) ["1"]).count (Ev.metaWrite "manga-x") = 1 ∧
    metaWriteBeforeChaptersP (mangadexWorkerItem [] "manga-x" (.ok true) ["1"]) :=
  metadata_write_precedes_chapters [] "manga-x" ["1"] (by decide)

/-- `latestLe` is reflexive. -/
theorem latestLe_refl (o : Option ℚ) : latestLe o o := by
  cases o with
  | none => trivial
  | some a => exact le_refl a

/-- `latestLe` is transitive. -/
theorem latestLe_trans {a b c : Option ℚ} (h1 : latestLe a b) (h2 : latestLe b c) :
    latestLe a c := by
  cases a with
  | none => trivial
  | some x =>
      cases b with
      | none => exact absurd h1 (by simp [latestLe])
      | some y =>
          cases c with
          | none => exact absurd h2 (by simp [latestLe])
          | some z => exact le_trans h1 h2

/-- A row found by hash carries that hash. -/
theorem findHash_hash_eq {tbl : List MetaRow} {hsh : String} {r : MetaRow}
    (h : findHash tbl hsh = some r) : r.hash = hsh := by
  induction tbl with
  | nil => exact Option.noConfusion h
  | cons r0 rest ih =>
      by_cases h0 : r0.hash = hsh
      · rw [findHash, if_pos h0] at h
        cases h
        exact h0
      · rw [findHash, if_neg h0] at h
        exact ih h

/-- A SQL `UPDATE ... WHERE hash = tgt` does not affect the row found for
any other hash. -/
theorem findHash_updateHash_ne {hsh tgt : String} (h : hsh ≠ tgt)
    (tbl : List MetaRow) (latest : ℚ) (cover : String) :
    findHash (updateHash tbl tgt latest cover) hsh = findHash tbl hsh := by
  induction tbl with
  | nil => rfl
  | cons r rest ih =>
      have h3 : ¬tgt = hsh := fun hh => h hh.symm
      have h4 : ¬hsh = tgt := fun hh => h hh
      by_cases h1 : r.hash = tgt
      · have h2 : ¬r.hash = hsh := fun hh => h (hh.symm.trans h1)
        simp [updateHash, findHash, h1, h2, h3, h4, ih]
      · by_cases h2 : r.hash = hsh
        · simp [updateHash, findHash, h1, h2, h3, h4]
        · simp [updateHash, findHash, h1, h2, h3, h4, ih]

/-- A SQL `UPDATE ... WHERE hash = tgt` rewrites the found row's
`latest_chapter` and `cover_img`. -/
theorem findHash_updateHash_self {tbl : List MetaRow} {tgt : String} {row : MetaRow}
    (hf : findHash tbl tgt = some row) (latest : ℚ) (cover : String) :
    findHash (updateHash tbl tgt latest cover) tgt =
      some { row with latest_chapter := latest, cover_img := cover } := by
  induction tbl with
  | nil => exact Option.noConfusion hf
  | cons r rest ih =>
      by_cases h1 : r.hash = tgt
      · rw [findHash, if_pos h1] at hf
        cases hf
        simp [updateHash, findHash, h1]
      · rw [findHash, if_neg h1] at hf
        simp [updateHash, findHash, h1, ih hf]

/-- A hash found in a prefix is still found after appending rows. -/
theorem findHash_append_of_some {t1 : List MetaRow} (t2 : List MetaRow) {hsh : String}
    {r : MetaRow} (h : findHash t1 hsh = some r) : findHash (t1 ++ t2) hsh = some r := by
  induction t1 with
  | nil => exact Option.noConfusion h
  | cons r0 rest ih =>
      by_cases h0 : r0.hash = hsh
      · rw [findHash, if_pos h0] at h
        rw [List.cons_append, findHash, if_pos h0]
        exact h
      · rw [findHash, if_neg h0] at h
        rw [List.cons_append, findHash, if_neg h0]
        exact ih h

/-- One `insert_manga_metadata` call never lowers any stored
`latest_chapter`: it inserts a fresh row, leaves the table unchanged, or
updates the matching row to a strictly larger value. -/
theorem insert_manga_metadata_mono (tbl : List MetaRow) (m : Manga) (hsh : String) :
    latestLe (storedLatest tbl hsh) (storedLatest (insert_manga_metadata tbl m) hsh) := by
  cases hf : findHash tbl m.id with
  | some row =>
      simp only [insert_manga_metadata, hf]
      by_cases hlt : row.latest_chapter < m.latest_chapter
      · rw [if_pos hlt]
        unfold storedLatest
        by_cases hh : hsh = m.id
        · subst hh
          rw [hf, findHash_updateHash_self hf]
          exact le_of_lt hlt
        · rw [findHash_updateHash_ne hh]
          exact latestLe_refl _
      · rw [if_neg hlt]
        exact latestLe_refl _
  | none =>
      simp only [insert_manga_metadata, hf]
      by_cases h0 : m.latest_chapter = 0
      · rw [if_pos h0]
        exact latestLe_refl _
      · rw [if_neg h0]
        unfold storedLatest
        cases hg : findHash tbl hsh with
        | none => trivial
        | some r2 =>
            rw [findHash_append_of_some _ hg]
            exact le_refl _

/-- Claim C4 (confirmed): across any sequence of sync attempts for any
item — each attempt either reaching the `insert_manga_metadata` call or
failing before it and leaving the table untouched — the `latest_chapter`
stored in the item's `manga_metadata` row never decreases: once present it
only stays or grows. -/
theorem latest_chapter_monotone (hsh : String) (tbl : List MetaRow)
    (attempts : List (Manga × Bool)) :
    latestLe (storedLatest tbl hsh)
      (storedLatest (attempts.foldl metadataAttempt tbl) hsh) := by
  induction attempts generalizing tbl with
  | nil => exact latestLe_refl _
  | cons a as ih =>
      refine latestLe_trans ?_ (ih (metadataAttempt tbl a))
      unfold metadataAttempt
      by_cases hb : a.2
      · rw [if_pos hb]
        exact insert_manga_metadata_mono tbl a.1 hsh
      · rw [if_neg hb]
        exact latestLe_refl _

/-- A table found by name is one of the database's entries. -/
theorem lookupTable_mem {db : PageDB} {t : String} {rows : List PageRow}
    (h : lookupTable db t = some rows) : (t, rows) ∈ db := by
  induction db with
  | nil => exact Option.noConfusion h
  | cons q rest ih =>
      rcases q with ⟨tq, rq⟩
      by_cases ht : tq = t
      · simp only [lookupTable, if_pos ht] at h
        cases h
        subst ht
        exact List.mem_cons_self _ _
      · simp only [lookupTable, if_neg ht] at h
        exact List.mem_cons_of_mem _ (ih h)

/-- `hasPageKey` detects exactly the keys present in the table. -/
theorem hasPageKey_iff (rows : List PageRow) (ch pg : String) :
    hasPageKey rows ch pg = true ↔
      (ch, pg) ∈ rows.map (fun r => (r.chapter_num, r.page_number)) := by
  induction rows with
  | nil => simp [hasPageKey]
  | cons r rest ih =>
      simp only [hasPageKey, Bool.or_eq_true, Bool.and_eq_true, decide_eq_true_eq,
        List.map_cons, List.mem_cons, ih, Prod.mk.injEq]
      constructor
      · rintro (⟨h1, h2⟩ | h)
        · exact Or.inl ⟨h1.symm, h2.symm⟩
        · exact Or.inr h
      · rintro (⟨h1, h2⟩ | h)
        · exact Or.inl ⟨h1.symm, h2.symm⟩
        · exact Or.inr h

/-- Every entry of `setTable db t nr` is an entry of `db` or the rewritten
table. -/
theorem mem_setTable {db : PageDB} {t : String} {nr : List PageRow}
    {p : String × List PageRow} (hp : p ∈ setTable db t nr) : p ∈ db ∨ p = (t, nr) := by
  induction db with
  | nil => cases hp
  | cons q rest ih =>
      rcases q with ⟨tq, rq⟩
      by_cases h : tq = t
      · rw [setTable, if_pos h] at hp
        rcases List.mem_cons.mp hp with h1 | h1
        · right
          rw [h1, h]
        · rcases ih h1 with h2 | h2
          · exact Or.inl (List.mem_cons_of_mem _ h2)
          · exact Or.inr h2
      · rw [setTable, if_neg h] at hp
        rcases List.mem_cons.mp hp with h1 | h1
        · left
          rw [h1]
          exact List.mem_cons_self _ _
        · rcases ih h1 with h2 | h2
          · exact Or.inl (List.mem_cons_of_mem _ h2)
          · exact Or.inr h2

/-- After rewriting a table that exists, looking it up returns the new
rows. -/
theorem lookupTable_setTable_self {db : PageDB} {t : String} {rows : List PageRow}
    (h : lookupTable db t = some rows) (nr : List PageRow) :
    lookupTable (setTable db t nr) t = some nr := by
  induction db with
  | nil => exact Option.noConfusion h
  | cons q rest ih =>
      rcases q with ⟨tq, rq⟩
      by_cases ht : tq = t
      · simp only [setTable, lookupTable, if_pos ht]
      · simp only [setTable, lookupTable, if_neg ht] at h ⊢
        exact ih h

/-- A successful `store_page_url` leaves the target table with the stored
key present. -/
theorem store_page_url_ok_key_present {db db' : PageDB} {mangaId n ch pg u : String}
    (h : store_page_url db mangaId n ch pg u = .ok db') :
    ∃ rows', lookupTable db' (sanitizeId mangaId) = some rows' ∧
      hasPageKey rows' ch pg = true := by
  cases hl : lookupTable db (sanitizeId mangaId) with
  | none =>
      simp only [store_page_url, hl] at h
      exact Except.noConfusion h
  | some rows =>
      simp only [store_page_url, hl] at h
      by_cases hk : hasPageKey rows ch pg = true
      · rw [if_pos hk] at h
        cases h
        exact ⟨rows, hl, hk⟩
      · rw [if_neg hk] at h
        cases h
        refine ⟨rows ++ [⟨n, ch, pg, u⟩], lookupTable_setTable_self hl _, ?_⟩
        rw [hasPageKey_iff, List.map_append]
        simp

/-- Storing a key already present in an existing table returns the
database unchanged and does not raise. -/
theorem store_page_url_key_present {db : PageDB} {mangaId n ch pg u : String}
    {rows : List PageRow} (hl : lookupTable db (sanitizeId mangaId) = some rows)
    (hk : hasPageKey rows ch pg = true) :
    store_page_url db mangaId n ch pg u = .ok db := by
  simp only [store_page_url, hl, hk, if_true]

/-- A successful `store_page_url` preserves key-uniqueness of every
table. -/
theorem store_page_url_inv {db db' : PageDB} {mangaId n ch pg u : String}
    (hinv : pageDBInv db) (h : store_page_url db mangaId n ch pg u = .ok db') :
    pageDBInv db' := by
  cases hl : lookupTable db (sanitizeId mangaId) with
  | none =>
      simp only [store_page_url, hl] at h
      exact Except.noConfusion h
  | some rows =>
      simp only [store_page_url, hl] at h
      by_cases hk : hasPageKey rows ch pg = true
      · rw [if_pos hk] at h
        cases h
        exact hinv
      · rw [if_neg hk] at h
        cases h
        intro p hp
        rcases mem_setTable hp with hmem | heq
        · exact hinv p hmem
        · rw [heq]
          have hrows : tableKeyUnique rows := hinv _ (lookupTable_mem hl)
          show tableKeyUnique (rows ++ [⟨n, ch, pg, u⟩])
          unfold tableKeyUnique at hrows ⊢
          rw [List.map_append, List.nodup_append]
          refine ⟨hrows, by simp, ?_⟩
          intro a ha hb
          simp only [List.map_cons, List.map_nil, List.mem_singleton] at hb
          rw [hb] at ha
          exact hk ((hasPageKey_iff rows ch pg).mpr ha)

/-- `create_page_urls_table` preserves key-uniqueness of every table. -/
theorem create_page_urls_table_inv {db : PageDB} (hinv : pageDBInv db) (id : String) :
    pageDBInv (create_page_urls_table db id) := by
  cases hl : lookupTable db (sanitizeId id) with
  | some rows =>
      have heq : create_page_urls_table db id = db := by
        simp only [create_page_urls_table, hl]
      rw [heq]
      exact hinv
  | none =>
      have heq : create_page_urls_table db id = db ++ [(sanitizeId id, [])] := by
        simp only [create_page_urls_table, hl]
      rw [heq]
      intro p hp
      rcases List.mem_append.mp hp with h1 | h1
      · exact hinv p h1
      · simp only [List.mem_singleton] at h1
        rw [h1]
        show tableKeyUnique []
        exact List.nodup_nil

/-- The empty database is key-unique. -/
theorem pageDBInv_nil : pageDBInv [] := fun p hp => absurd hp (List.not_mem_nil p)

/-- Every operation preserves key-uniqueness. -/
theorem applyPageOp_inv {db : PageDB} (hdb : pageDBInv db) (op : PageOp) :
    pageDBInv (applyPageOp db op) := by
  cases op with
  | create id => exact create_page_urls_table_inv hdb id
  | store a b c d e =>
      cases hs : store_page_url db a b c d e with
      | ok db2 =>
          have heq : applyPageOp db (PageOp.store a b c d e) = db2 := by
            simp only [applyPageOp, hs]
          rw [heq]
          exact store_page_url_inv hdb hs
      | error err =>
          have heq : applyPageOp db (PageOp.store a b c d e) = db := by
            simp only [applyPageOp, hs]
          rw [heq]
          exact hdb

/-- Every database reachable by engine operations is key-unique. -/
theorem runPageOps_inv (ops : List PageOp) : pageDBInv (runPageOps ops) := by
  have key : ∀ db, pageDBInv db → pageDBInv (ops.foldl applyPageOp db) := by
    induction ops with
    | nil => exact fun db hdb => hdb
    | cons op rest ih => exact fun db hdb => ih _ (applyPageOp_inv hdb op)
  exact key [] pageDBInv_nil

/-- Claim C5 (confirmed): in every State Store state reachable by the
engine's table-create and page-insert operations, each per-manga table
holds at most one row per `(chapter_num, page_number)` key — so at most
one page record exists per `(item_id, chapter_index, page_number)` — and
re-running a successful insert with the same key is a no-op that succeeds:
it returns `ok` and leaves the database exactly as it was. -/
theorem page_key_unique_and_duplicate_insert_noop (ops : List PageOp)
    (mangaId manga_name ch pg url : String) (db' : PageDB)
    (h : store_page_url (runPageOps ops) mangaId manga_name ch pg url = Except.ok db') :
    pageDBInv (runPageOps ops) ∧ pageDBInv db' ∧
    store_page_url db' mangaId manga_name ch pg url = Except.ok db' := by
  have hinv := runPageOps_inv ops
  refine ⟨hinv, store_page_url_inv hinv h, ?_⟩
  obtain ⟨rows', hl', hk'⟩ := store_page_url_ok_key_present h
  exact store_page_url_key_present hl' hk'

/-- Witness for C5: after creating `manga-x`'s table and storing chapter 1
page 1, storing the same key again (even with a different URL) returns the
database unchanged. -/
theorem page_key_unique_and_duplicate_insert_noop_witness :
    pageDBInv (runPageOps opsX) ∧ pageDBInv (runPageOps opsX) ∧
    store_page_url (runPageOps opsX) "manga-x" "T" "1" "1" "u2" =
      Except.ok (runPageOps opsX) :=
  page_key_unique_and_duplicate_insert_noop opsX "manga-x" "T" "1" "1" "u2"
    (runPageOps opsX) rfl

/-- Claim C10 (confirmed): two distinct item ids that agree after the
hyphen-to-underscore sanitization share one physical page table: a page
stored under the first id is reported by the persisted-pages read for the
second id, and inserting the same `(chapter, page)` key under the second
id is ignored — the two ids share a single uniqueness scope. -/
theorem sanitized_id_collision_shares_table (id1 id2 manga_name ch pg url : String)
    (db db' : PageDB) (hne : id1 ≠ id2) (hcol : sanitizeId id1 = sanitizeId id2)
    (hstore : store_page_url db id1 manga_name ch pg url = Except.ok db') :
    pg ∈ get_existing_chapter_pages db' id2 ch ∧
    store_page_url db' id2 manga_name ch pg url = Except.ok db' := by
  obtain ⟨rows', hl', hk'⟩ := store_page_url_ok_key_present hstore
  have hl2 : lookupTable db' (sanitizeId id2) = some rows' := by
    rw [← hcol]
    exact hl'
  constructor
  · simp only [get_existing_chapter_pages, hl2]
    rw [hasPageKey_iff] at hk'
    rcases List.mem_map.mp hk' with ⟨r, hr, hkey⟩
    have h1 : r.chapter_num = ch := ((Prod.mk.injEq _ _ _ _).mp hkey).1
    have h2 : r.page_number = pg := ((Prod.mk.injEq _ _ _ _).mp hkey).2
    refine List.mem_map.mpr ⟨r, ?_, h2⟩
    refine List.mem_filter.mpr ⟨hr, ?_⟩
    simp [h1]
  · exact store_page_url_key_present hl2 hk'

/-- Witness for C10: `a-b` and `a_b` are distinct ids that sanitize to the
same table name; a page stored under `a-b` is visible to `a_b` and its
re-insert under `a_b` is ignored. -/
theorem sanitized_id_collision_shares_table_witness :
    "1" ∈ get_existing_chapter_pages dbCollideAfter "a_b" "1" ∧
    store_page_url dbCollideAfter "a_b" "T" "1" "1" "u" = Except.ok dbCollideAfter :=
  sanitized_id_collision_shares_table "a-b" "a_b" "T" "1" "1" "u" dbCollide dbCollideAfter
    (by decide) rfl rfl

/-- Updating a worker slot makes the new phase visible at that slot. -/
theorem wget_wset_self {l : List WPhase} {n : ℕ} {p : WPhase}
    (h : wget l n = some p) (q : WPhase) : wget (wset l n q) n = some q := by
  induction l generalizing n with
  | nil => exact Option.noConfusion h
  | cons a rest ih =>
      cases n with
      | zero => rfl
      | succ m => exact ih h

/-- Updating one worker slot leaves every other slot unchanged. -/
theorem wget_wset_ne {l : List WPhase} {n m : ℕ} (h : n ≠ m) (q : WPhase) :
    wget (wset l n q) m = wget l m := by
  induction l generalizing n m with
  | nil => rfl
  | cons a rest ih =>
      cases n with
      | zero =>
          cases m with
          | zero => exact absurd rfl h
          | succ m2 => rfl
      | succ n2 =>
          cases m with
          | zero => rfl
          | succ m2 => exact ih (fun hh => h (congrArg Nat.succ hh))

/-- In the initial pool every occupied slot is idle. -/
theorem wget_replicate_idle {n w : ℕ} {p : WPhase}
    (h : wget (List.replicate n WPhase.idle) w = some p) : p = WPhase.idle := by
  induction n generalizing w with
  | zero => exact Option.noConfusion h
  | succ n2 ih =>
      cases w with
      | zero => exact (Option.some.inj h).symm
      | succ w2 => exact ih h

/-- `set.add` puts the element in. -/
theorem mem_setAdd_self (s : List String) (id : String) : id ∈ setAdd s id := by
  unfold setAdd
  by_cases h : id ∈ s
  · rw [if_pos h]
    exact h
  · rw [if_neg h]
    exact List.mem_cons_self _ _

/-- `set.add` keeps the existing elements. -/
theorem mem_setAdd_of_mem {s : List String} {x : String} (h : x ∈ s) (id : String) :
    x ∈ setAdd s id := by
  unfold setAdd
  by_cases hm : id ∈ s
  · rw [if_pos hm]
    exact h
  · rw [if_neg hm]
    exact List.mem_cons_of_mem _ h

/-- `set.discard` keeps the elements that differ from the discarded one. -/
theorem mem_setDiscard_of_mem_ne {s : List String} {x id : String}
    (h : x ∈ s) (hne : x ≠ id) : x ∈ setDiscard s id := by
  simp [setDiscard, List.mem_filter, h, hne]

/-- `set.discard` removes the discarded element. -/
theorem not_mem_setDiscard (s : List String) (id : String) : id ∉ setDiscard s id := by
  simp [setDiscard, List.mem_filter]

/-- Each atomic action preserves the dedup-guard invariant. -/
theorem guardStep_inv {st : GuardSys} (hinv : GuardInv st) (a : GuardAct) :
    GuardInv (guardStep st a) := by
  obtain ⟨hsub, hmutex⟩ := hinv
  cases a with
  | tryAcquire w id =>
      cases hw : wget st.workers w with
      | none =>
          have heq : guardStep st (.tryAcquire w id) = st := by
            simp only [guardStep, hw]
          rw [heq]
          exact ⟨hsub, hmutex⟩
      | some ph =>
          cases ph with
          | working id2 =>
              have heq : guardStep st (.tryAcquire w id) = st := by
                simp only [guardStep, hw]
              rw [heq]
              exact ⟨hsub, hmutex⟩
          | idle =>
              by_cases hmem : id ∈ st.pset
              · have heq : guardStep st (.tryAcquire w id) = st := by
                  simp only [guardStep, hw, if_pos hmem]
                rw [heq]
                exact ⟨hsub, hmutex⟩
              · have heq : guardStep st (.tryAcquire w id) =
                    (⟨setAdd st.pset id, wset st.workers w (.working id), st.opPhase⟩ : GuardSys) := by
                  simp only [guardStep, hw, if_neg hmem]
                rw [heq]
                constructor
                · intro v idv hv
                  show idv ∈ setAdd st.pset id
                  by_cases hvw : w = v
                  · subst hvw
                    have hv2 : wget (wset st.workers w (WPhase.working id)) w =
                        some (WPhase.working idv) := hv
                    rw [wget_wset_self hw] at hv2
                    cases Option.some.inj hv2
                    exact mem_setAdd_self _ _
                  · have hv2 : wget st.workers v = some (WPhase.working idv) := by
                      have := hv
                      show wget st.workers v = some (WPhase.working idv)
                      rw [← wget_wset_ne hvw (WPhase.working id)]
                      exact this
                    exact mem_setAdd_of_mem (hsub v idv hv2) id
                · intro v u idv hv hu
                  by_cases hvw : w = v
                  · by_cases huw : w = u
                    · rw [← hvw, ← huw]
                    · exfalso
                      have hu2 : wget st.workers u = some (WPhase.working idv) := by
                        show wget st.workers u = some (WPhase.working idv)
                        rw [← wget_wset_ne huw (WPhase.working id)]
                        exact hu
                      have hv2 : wget (wset st.workers w (WPhase.working id)) w =
                          some (WPhase.working idv) := hvw ▸ hv
                      rw [wget_wset_self hw] at hv2
                      cases Option.some.inj hv2
                      exact hmem (hsub u id hu2)
                  · by_cases huw : w = u
                    · exfalso
                      have hv2 : wget st.workers v = some (WPhase.working idv) := by
                        show wget st.workers v = some (WPhase.working idv)
                        rw [← wget_wset_ne hvw (WPhase.working id)]
                        exact hv
                      have hu2 : wget (wset st.workers w (WPhase.working id)) w =
                          some (WPhase.working idv) := huw ▸ hu
                      rw [wget_wset_self hw] at hu2
                      cases Option.some.inj hu2
                      exact hmem (hsub v id hv2)
                    · have hv2 : wget st.workers v = some (WPhase.working idv) := by
                        show wget st.workers v = some (WPhase.working idv)
                        rw [← wget_wset_ne hvw (WPhase.working id)]
                        exact hv
                      have hu2 : wget st.workers u = some (WPhase.working idv) := by
                        show wget st.workers u = some (WPhase.working idv)
                        rw [← wget_wset_ne huw (WPhase.working id)]
                        exact hu
                      exact hmutex v u idv hv2 hu2
  | finishItem w failed =>
      cases hw : wget st.workers w with
      | none =>
          have heq : guardStep st (.finishItem w failed) = st := by
            simp only [guardStep, hw]
          rw [heq]
          exact ⟨hsub, hmutex⟩
      | some ph =>
          cases ph with
          | idle =>
              have heq : guardStep st (.finishItem w failed) = st := by
                simp only [guardStep, hw]
              rw [heq]
              exact ⟨hsub, hmutex⟩
          | working id =>
              have heq : guardStep st (.finishItem w failed) =
                  (⟨setDiscard st.pset id, wset st.workers w .idle, st.opPhase⟩ : GuardSys) := by
                simp only [guardStep, hw]
              rw [heq]
              constructor
              · intro v idv hv
                show idv ∈ setDiscard st.pset id
                by_cases hvw : w = v
                · exfalso
                  have hv2 : wget (wset st.workers w WPhase.idle) w =
                      some (WPhase.working idv) := hvw ▸ hv
                  rw [wget_wset_self hw] at hv2
                  exact WPhase.noConfusion (Option.some.inj hv2)
                · have hv2 : wget st.workers v = some (WPhase.working idv) := by
                    show wget st.workers v = some (WPhase.working idv)
                    rw [← wget_wset_ne hvw WPhase.idle]
                    exact hv
                  have hne2 : idv ≠ id := fun heq2 => hvw (hmutex w v id hw (heq2 ▸ hv2))
                  exact mem_setDiscard_of_mem_ne (hsub v idv hv2) hne2
              · intro v u idv hv hu
                by_cases hvw : w = v
                · exfalso
                  have hv2 : wget (wset st.workers w WPhase.idle) w =
                      some (WPhase.working idv) := hvw ▸ hv
                  rw [wget_wset_self hw] at hv2
                  exact WPhase.noConfusion (Option.some.inj hv2)
                · by_cases huw : w = u
                  · exfalso
                    have hu2 : wget (wset st.workers w WPhase.idle) w =
                        some (WPhase.working idv) := huw ▸ hu
                    rw [wget_wset_self hw] at hu2
                    exact WPhase.noConfusion (Option.some.inj hu2)
                  · have hv2 : wget st.workers v = some (WPhase.working idv) := by
                      show wget st.workers v = some (WPhase.working idv)
                      rw [← wget_wset_ne hvw WPhase.idle]
                      exact hv
                    have hu2 : wget st.workers u = some (WPhase.working idv) := by
                      show wget st.workers u = some (WPhase.working idv)
                      rw [← wget_wset_ne huw WPhase.idle]
                      exact hu
                    exact hmutex v u idv hv2 hu2
  | opStart id => exact ⟨hsub, hmutex⟩
  | opFinish failed => exact ⟨hsub, hmutex⟩

/-- The initial state satisfies the dedup-guard invariant. -/
theorem guardInv_start (n : ℕ) : GuardInv (guardStart n) := by
  constructor
  · intro w id hw
    exact absurd (wget_replicate_idle hw) (fun hh => WPhase.noConfusion hh)
  · intro w v id hw hv
    exact absurd (wget_replicate_idle hw) (fun hh => WPhase.noConfusion hh)

/-- Every reachable state satisfies the dedup-guard invariant. -/
theorem guardInv_run (n : ℕ) (acts : List GuardAct) : GuardInv (runGuard n acts) := by
  have key : ∀ st, GuardInv st → GuardInv (acts.foldl guardStep st) := by
    induction acts with
    | nil => exact fun st h => h
    | cons a rest ih => exact fun st h => ih _ (guardStep_inv h a)
  exact key _ (guardInv_start n)

/-- Claim C6 (confirmed): in every state reachable by interleaved worker
and operator actions, the dedup guard grants each item id to at most one
worker (two concurrent test-and-set acquires never both succeed) and every
held id sits in `processing_manga`; the `finally`-block release — taken
whether the item's processing failed or not — removes the id from the set
and idles the worker; and afterwards any idle worker can re-acquire the
id. -/
theorem dedup_guard_mutual_exclusion (n : ℕ) (acts : List GuardAct) (w : ℕ)
    (failed : Bool) (id : String)
    (hw : workerHolds (runGuard n acts) w id) :
    GuardInv (runGuard n acts) ∧
    (id ∉ (guardStep (runGuard n acts) (.finishItem w failed)).pset ∧
      wget (guardStep (runGuard n acts) (.finishItem w failed)).workers w = some .idle) ∧
    (∀ u : ℕ,
      wget (guardStep (runGuard n acts) (.finishItem w failed)).workers u = some .idle →
      workerHolds
        (guardStep (guardStep (runGuard n acts) (.finishItem w failed)) (.tryAcquire u id))
        u id) := by
  have hinv := guardInv_run n acts
  have hw2 : wget (runGuard n acts).workers w = some (WPhase.working id) := hw
  have heq : guardStep (runGuard n acts) (.finishItem w failed) =
      (⟨setDiscard (runGuard n acts).pset id, wset (runGuard n acts).workers w .idle,
        (runGuard n acts).opPhase⟩ : GuardSys) := by
    simp only [guardStep, hw2]
  refine ⟨hinv, ⟨?_, ?_⟩, ?_⟩
  · rw [heq]
    exact not_mem_setDiscard _ _
  · rw [heq]
    exact wget_wset_self hw2 .idle
  · intro u hu
    rw [heq] at hu ⊢
    have hid2 : id ∉ setDiscard (runGuard n acts).pset id := not_mem_setDiscard _ _
    have heq2 : guardStep (⟨setDiscard (runGuard n acts).pset id,
        wset (runGuard n acts).workers w .idle, (runGuard n acts).opPhase⟩ : GuardSys)
          (.tryAcquire u id) =
        (⟨setAdd (setDiscard (runGuard n acts).pset id) id,
          wset (wset (runGuard n acts).workers w .idle) u (.working id),
          (runGuard n acts).opPhase⟩ : GuardSys) := by
      simp only [guardStep, hu, if_neg hid2]
    rw [heq2]
    exact wget_wset_self hu _

/-- Witness for C6 after worker 0 has acquired `manga-x`. -/
theorem dedup_guard_mutual_exclusion_witness :
    GuardInv (runGuard 2 [GuardAct.tryAcquire 0 "manga-x"]) ∧
    ("manga-x" ∉
        (guardStep (runGuard 2 [GuardAct.tryAcquire 0 "manga-x"])
          (.finishItem 0 true)).pset ∧
      wget (guardStep (runGuard 2 [GuardAct.tryAcquire 0 "manga-x"])
          (.finishItem 0 true)).workers 0 = some .idle) ∧
    (∀ u : ℕ,
      wget (guardStep (runGuard 2 [GuardAct.tryAcquire 0 "manga-x"])
          (.finishItem 0 true)).workers u = some .idle →
      workerHolds
        (guardStep (guardStep (runGuard 2 [GuardAct.tryAcquire 0 "manga-x"])
          (.finishItem 0 true)) (.tryAcquire u "manga-x")) u "manga-x") :=
  dedup_guard_mutual_exclusion 2 [GuardAct.tryAcquire 0 "manga-x"] 0 true "manga-x" rfl

/-- Claim C7 is false of the code: the dashboard request-queue worker
(`libs/dashboard.py` 53-82) never touches `processing_manga`, so from the
initial state the actions "worker 0 acquires `manga-x`" then "operator
request for `manga-x` starts" reach a state in which a discovery worker
holds the id *and* the operator path is concurrently syncing the same id —
the operator path does not go through the dedup guard. -/
theorem operator_bypasses_dedup_guard_counterexample :
    workerHolds (runGuard 2 actsX) 0 "manga-x" ∧
    (runGuard 2 actsX).opPhase = WPhase.working "manga-x" ∧
    "manga-x" ∈ (runGuard 2 actsX).pset :=
  ⟨rfl, rfl, by decide⟩

/-- Claim C7, amended: an operator-requested id is processed by the same
helper sync path, but outside the dedup guard — starting the request-queue
worker on an id succeeds unconditionally (even while a discovery worker
holds that id) and neither consults nor changes `processing_manga` or the
worker pool. -/
theorem operator_request_bypasses_guard (st : GuardSys) (id : String) :
    (guardStep st (.opStart id)).opPhase = WPhase.working id ∧
    (guardStep st (.opStart id)).pset = st.pset ∧
    (guardStep st (.opStart id)).workers = st.workers :=
  ⟨rfl, rfl, rfl⟩

/-- Claim C8 (the code contradicts it).  The trigger side of the claim
matches the code — a flush is attempted exactly when the signal count
reaches 10 or 300 seconds have elapsed — but the failure side does not:
`data_to_s3` catches the upload failure internally and returns normally,
so the reset lines at `main.py` 286-287 run even when the upload failed.
After a failed flush the count is reset to 0 and the last-flush timestamp
to the current time, and no later iteration retries the flush until the
thresholds are reached afresh (at least 300 more seconds, or ten new
signals). -/
theorem replication_failed_flush_resets_counters (st : S3State) (i : S3Iter)
    (htrig : 10 ≤ st.upload_count + (if i.gotSignal then 1 else 0) ∨
      300 ≤ i.now - st.last_upload_time)
    (hfail : i.flushOk = false) :
    (s3UploadStep st i).flushAttempted = true ∧
    (s3UploadStep st i).flushSucceeded = false ∧
    (s3UploadStep st i).state = ⟨0, i.now⟩ ∧
    (∀ i2 : S3Iter, i2.now - i.now < 300 →
      (s3UploadStep (s3UploadStep st i).state i2).flushAttempted = false) := by
  have heq : s3UploadStep st i = ⟨⟨0, i.now⟩, true, i.flushOk⟩ := by
    simp only [s3UploadStep, if_pos htrig, data_to_s3]
  rw [heq]
  refine ⟨rfl, hfail, rfl, ?_⟩
  intro i2 hlt
  have hcnt : (0 : ℕ) + (if i2.gotSignal then 1 else 0) < 10 := by
    cases hg : i2.gotSignal
    · simp [hg]
    · simp [hg]
  have hnot : ¬(10 ≤ (0 : ℕ) + (if i2.gotSignal then 1 else 0) ∨
      300 ≤ i2.now - i.now) := by
    push_neg
    exact ⟨hcnt, hlt⟩
  simp only [s3UploadStep, if_neg hnot]

/-- Witness for C8: with 9 accumulated signals, a tenth signal at time 100
triggers a flush whose S3 upload fails; both counters are reset anyway,
and no iteration during the following 300 seconds attempts the flush
again. -/
theorem replication_failed_flush_resets_counters_witness :
    (s3UploadStep ⟨9, 0⟩ ⟨true, 100, false⟩).flushAttempted = true ∧
    (s3UploadStep ⟨9, 0⟩ ⟨true, 100, false⟩).flushSucceeded = false ∧
    (s3UploadStep ⟨9, 0⟩ ⟨true, 100, false⟩).state = ⟨0, 100⟩ ∧
    (∀ i2 : S3Iter, i2.now - 100 < 300 →
      (s3UploadStep (s3UploadStep ⟨9, 0⟩ ⟨true, 100, false⟩).state i2).flushAttempted
        = false) :=
  replication_failed_flush_resets_counters ⟨9, 0⟩ ⟨true, 100, false⟩
    (Or.inl (by decide)) rfl

/-- The seed of a max-fold bounds the result from below. -/
theorem foldl_max_base_le (l : List ℕ) (b : ℕ) : b ≤ l.foldl max b := by
  induction l generalizing b with
  | nil => exact le_refl b
  | cons x xs ih => exact le_trans (le_max_left b x) (ih (max b x))

/-- A max-fold is bounded by any bound on the seed and the elements. -/
theorem foldl_max_le {l : List ℕ} : ∀ {b n : ℕ}, b ≤ n → (∀ a ∈ l, a ≤ n) →
    l.foldl max b ≤ n := by
  induction l with
  | nil => exact fun hb _ => hb
  | cons x xs ih =>
      intro b n hb hall
      exact ih (max_le hb (hall x (List.mem_cons_self _ _)))
        (fun a ha => hall a (List.mem_cons_of_mem _ ha))

/-- Every element bounds a max-fold from below. -/
theorem le_foldl_max {l : List ℕ} : ∀ {b a : ℕ}, a ∈ l → a ≤ l.foldl max b := by
  induction l with
  | nil => exact fun ha => absurd ha (List.not_mem_nil _)
  | cons x xs ih =>
      intro b a ha
      rcases List.mem_cons.mp ha with h | h
      · subst h
        exact le_trans (le_max_right b a) (foldl_max_base_le xs _)
      · exact ih h

/-- The start half of the fan-out schedule contains `n` starts. -/
theorem countP_isStart_starts (n : ℕ) :
    ((List.range n).map ThreadEv.start).countP isStart = n := by
  have key : ∀ l : List ℕ, (l.map ThreadEv.start).countP isStart = l.length := by
    intro l
    induction l with
    | nil => rfl
    | cons x xs ih => simp [List.countP_cons, ih, isStart]
  rw [key, List.length_range]

/-- The join half of the fan-out schedule contains no starts. -/
theorem countP_isStart_joins (n : ℕ) :
    ((List.range n).map ThreadEv.join).countP isStart = 0 := by
  have key : ∀ l : List ℕ, (l.map ThreadEv.join).countP isStart = 0 := by
    intro l
    induction l with
    | nil => rfl
    | cons x xs ih => simp [List.countP_cons, ih, isStart]
  exact key _

/-- The start half of the fan-out schedule contains no joins. -/
theorem countP_join_starts (n : ℕ) :
    ((List.range n).map ThreadEv.start).countP (fun e => !isStart e) = 0 := by
  have key : ∀ l : List ℕ, (l.map ThreadEv.start).countP (fun e => !isStart e) = 0 := by
    intro l
    induction l with
    | nil => rfl
    | cons x xs ih => simp [List.countP_cons, ih, isStart]
  exact key _

/-- Length of the fan-out schedule. -/
theorem pageThreadSchedule_length (n : ℕ) : (pageThreadSchedule n).length = n + n := by
  simp [pageThreadSchedule]

/-- The first `n` events of the fan-out schedule are exactly the `n`
starts. -/
theorem pageThreadSchedule_take (n : ℕ) :
    (pageThreadSchedule n).take n = (List.range n).map ThreadEv.start := by
  have hlen : ((List.range n).map ThreadEv.start).length = n := by simp
  rw [pageThreadSchedule]
  nth_rewrite 1 [← hlen]
  exact List.take_left _ _

/-- The start-them-all-then-join-them-all schedule reaches a peak of `n`
simultaneously alive threads: right after the start loop, every one of the
`n` page threads may be running at once. -/
theorem peakConcurrency_schedule (n : ℕ) : peakConcurrency (pageThreadSchedule n) = n := by
  apply le_antisymm
  · apply foldl_max_le (Nat.zero_le n)
    intro a ha
    rcases List.mem_map.mp ha with ⟨k, _, hrun⟩
    rw [← hrun]
    calc runningAt ((pageThreadSchedule n).take k)
        ≤ ((pageThreadSchedule n).take k).countP isStart := Nat.sub_le _ _
      _ ≤ (pageThreadSchedule n).countP isStart :=
          (List.take_sublist _ _).countP_le _
      _ = n := by
          rw [pageThreadSchedule, List.countP_append, countP_isStart_starts,
            countP_isStart_joins]
          omega
  · apply le_foldl_max
    refine List.mem_map.mpr ⟨n, ?_, ?_⟩
    · refine List.mem_range.mpr ?_
      rw [pageThreadSchedule_length]
      omega
    · rw [pageThreadSchedule_take]
      unfold runningAt
      rw [countP_isStart_starts, countP_join_starts]
      omega

/-- With nothing stored yet, every manifest page is missing. -/
theorem mdMissingPages_nil_existing (data : List String) :
    mdMissingPages data [] = data :=
  List.filter_eq_self.mpr (fun a _ => rfl)

/-- Claim C9 is false of the code: no constant bounds the number of
simultaneously running page tasks of one chapter.  Both helpers start one
thread per missing page and only then join, so for every claimed bound `c`
a chapter with `c + 1` missing pages admits `c + 1` simultaneous tasks. -/
theorem page_fanout_unbounded_counterexample :
    ¬ ∃ c : ℕ, ∀ data existing : List String,
        peakConcurrency (pageThreadSchedule (mdMissingPages data existing).length) ≤ c := by
  rintro ⟨c, h⟩
  have h1 := h (mkPages (c + 1)) []
  rw [peakConcurrency_schedule] at h1
  have h2 : (mdMissingPages (mkPages (c + 1)) []).length = c + 1 := by
    rw [mdMissingPages_nil_existing]
    simp [mkPages]
  omega

/-- Claim C9, amended: the per-chapter page fan-out is one thread per
missing page, all started before any is joined — in both the MangaDex and
the NatoManga helper the peak number of simultaneously alive page tasks
equals the number of missing pages of that chapter, a quantity that grows
with the chapter, not a fixed pool size. -/
theorem page_fanout_one_thread_per_missing_page (data existing urls ex2 : List String) :
    peakConcurrency (pageThreadSchedule (mdMissingPages data existing).length) =
      (mdMissingPages data existing).length ∧
    peakConcurrency (pageThreadSchedule (natoMissingPages urls ex2).length) =
      (natoMissingPages urls ex2).length :=
  ⟨peakConcurrency_schedule _, peakConcurrency_schedule _⟩
